import Mathlib

/-!
Shallow embedding of the `erc20` ink! contract (src/lib.rs).

The contract stores a lazily initialised total supply, a
`HashMap<AccountId, Balance>` of balances and a
`HashMap<(AccountId, AccountId), Balance>` of allowances.  We model
`AccountId` as `Nat` (an opaque comparable identifier), `Balance` (u128
in ink) as `Nat` — overflow questions are settled explicitly against the
bound `2 ^ 128` — and each `HashMap` as an association list where lookup
returns the first matching entry (`unwrap_or_default` gives `0` for a
missing key) and insert replaces the first matching entry or appends.

The ambient execution environment (`self.env().caller()`) is passed as an
explicit `caller` argument, and event emission becomes an explicit list of
emitted events, following the spec's instruction to re-express both as
explicit inputs/outputs.  Each mutating message returns
`Except Error (Erc20 × List Event)`: the Rust methods return early on
error without having mutated `self`, so an `Except.error` result means
the pre-state is kept unchanged (made explicit by `postState`).
-/

namespace Erc20Spec

/-- Account identifiers are opaque comparable tokens; `Nat` suffices. -/
abbrev AccountId := Nat

/-- The `Error` enum of the contract. -/
inductive Error where
  | InsufficientBalance
  | InsufficientAllowance
deriving DecidableEq, Repr

/-- The two ink! events of the contract, `Transfer` and `Approval`. -/
inductive Event where
  | Transfer (frm : Option AccountId) (dest : Option AccountId) (value : Nat)
  | Approval (owner : AccountId) (spender : AccountId) (value : Nat)
deriving DecidableEq, Repr

/-- `HashMap::get(&k).copied().unwrap_or_default()`: value of the first
entry with key `k`, or `0` when absent. -/
def hmGet {κ : Type} [DecidableEq κ] : List (κ × Nat) → κ → Nat
  | [], _ => 0
  | (k', v) :: rest, k => if k' = k then v else hmGet rest k

/-- `HashMap::insert(k, v)`: replace the entry with key `k`, or add one
when absent. -/
def hmInsert {κ : Type} [DecidableEq κ] : List (κ × Nat) → κ → Nat → List (κ × Nat)
  | [], k, v => [(k, v)]
  | (k', v') :: rest, k, v =>
      if k' = k then (k, v) :: rest else (k', v') :: hmInsert rest k v

/-- Sum of all stored values of the map. -/
def sumVals {κ : Type} : List (κ × Nat) → Nat
  | [] => 0
  | (_, v) :: rest => v + sumVals rest

/-- The `Erc20` storage struct. -/
structure Erc20 where
  total_supply : Nat
  balances : List (AccountId × Nat)
  allowances : List ((AccountId × AccountId) × Nat)
deriving DecidableEq, Repr

/-- The constructor `new(supply)`: the caller receives the whole supply and
an issuance `Transfer` event (`from = None`) is emitted. -/
def Erc20.new (caller : AccountId) (supply : Nat) : Erc20 × List Event :=
  ({ total_supply := supply
     balances := hmInsert [] caller supply
     allowances := [] },
   [Event.Transfer none (some caller) supply])

/-- The `total_supply` message. -/
def Erc20.totalSupply (s : Erc20) : Nat :=
  s.total_supply

/-- The `balance_of` message: stored balance or zero. -/
def Erc20.balance_of (s : Erc20) (who : AccountId) : Nat :=
  hmGet s.balances who

/-- The `allowance` message: stored allowance or zero. -/
def Erc20.allowance (s : Erc20) (owner spender : AccountId) : Nat :=
  hmGet s.allowances (owner, spender)

/-- The private helper `inner_transfer(from, to, value)`. -/
def Erc20.inner_transfer (s : Erc20) (frm dest : AccountId) (value : Nat) :
    Except Error (Erc20 × List Event) :=
  let from_balance := s.balance_of frm
  if from_balance < value then
    Except.error Error.InsufficientBalance
  else
    let s1 : Erc20 := { s with balances := hmInsert s.balances frm (from_balance - value) }
    let to_balance := s1.balance_of dest
    let s2 : Erc20 := { s1 with balances := hmInsert s1.balances dest (to_balance + value) }
    Except.ok (s2, [Event.Transfer (some frm) (some dest) value])

/-- The `transfer(to, value)` message; `caller` is the resolved
environment caller. -/
def Erc20.transfer (s : Erc20) (caller dest : AccountId) (value : Nat) :
    Except Error (Erc20 × List Event) :=
  s.inner_transfer caller dest value

/-- The `approve(to, value)` message; `caller` is the resolved
environment caller (the owner). -/
def Erc20.approve (s : Erc20) (caller dest : AccountId) (value : Nat) :
    Except Error (Erc20 × List Event) :=
  Except.ok ({ s with allowances := hmInsert s.allowances (caller, dest) value },
             [Event.Approval caller dest value])

/-- The `transfer_from(from, to, value)` message; `caller` is the resolved
environment caller (the spender). -/
def Erc20.transfer_from (s : Erc20) (caller frm dest : AccountId) (value : Nat) :
    Except Error (Erc20 × List Event) :=
  let allowance := s.allowance frm caller
  if allowance < value then
    Except.error Error.InsufficientAllowance
  else
    match s.inner_transfer frm dest value with
    | Except.error e => Except.error e
    | Except.ok (s1, es) =>
        Except.ok ({ s1 with allowances := hmInsert s1.allowances (frm, caller) (allowance - value) },
                   es)

/-- The storage after a message call: the new state on success, the
unchanged pre-state on an early-return error. -/
def postState (s : Erc20) (r : Except Error (Erc20 × List Event)) : Erc20 :=
  match r with
  | Except.ok (s', _) => s'
  | Except.error _ => s

/-- One message call on the contract, by any caller with any arguments;
failed calls keep the state unchanged. -/
inductive Step (s : Erc20) : Erc20 → Prop where
  | transfer (caller dest : AccountId) (value : Nat) :
      Step s (postState s (s.transfer caller dest value))
  | approve (caller dest : AccountId) (value : Nat) :
      Step s (postState s (s.approve caller dest value))
  | transfer_from (caller frm dest : AccountId) (value : Nat) :
      Step s (postState s (s.transfer_from caller frm dest value))

/-- States reachable from `new(supply)` (deployed by `caller`) by any
sequence of `transfer`, `approve` and `transfer_from` calls. -/
inductive Reachable (caller : AccountId) (supply : Nat) : Erc20 → Prop where
  | init : Reachable caller supply (Erc20.new caller supply).1
  | step {s s' : Erc20} :
      Reachable caller supply s → Step s s' → Reachable caller supply s'

/-- Concrete deployment used by the witnesses: account `0` deploys with
supply `100`. -/
def initialLedger : Erc20 :=
  (Erc20.new 0 100).1

/-- `initialLedger` after account `0` approves spender `1` for `200`. -/
def approvedLedger : Erc20 :=
  postState initialLedger (initialLedger.approve 0 1 200)

/-- `approvedLedger` after spender `1` moves `50` from `0` to `2`. -/
def finalLedger : Erc20 :=
  postState approvedLedger (approvedLedger.transfer_from 1 0 2 50)

/-- `initialLedger` after account `0` transfers `30` to `1`. -/
def transferredLedger : Erc20 :=
  postState initialLedger (initialLedger.transfer 0 1 30)

/-! ### Lemmas about the map model -/

theorem hmGet_hmInsert_self {κ : Type} [DecidableEq κ] (l : List (κ × Nat)) (k : κ)
    (v : Nat) : hmGet (hmInsert l k v) k = v := by
  induction l with
  | nil => simp [hmInsert, hmGet]
  | cons p rest ih =>
    obtain ⟨k', v'⟩ := p
    by_cases h : k' = k <;> simp [hmInsert, hmGet, h, ih]

theorem hmGet_hmInsert_ne {κ : Type} [DecidableEq κ] (l : List (κ × Nat)) (k k' : κ)
    (v : Nat) (h : k' ≠ k) : hmGet (hmInsert l k v) k' = hmGet l k' := by
  have hks : k ≠ k' := fun hk => h hk.symm
  induction l with
  | nil => simp [hmInsert, hmGet, hks]
  | cons p rest ih =>
    obtain ⟨k'', v''⟩ := p
    by_cases hk : k'' = k
    · subst hk
      simp [hmInsert, hmGet, hks]
    · simp [hmInsert, hmGet, hk, ih]

theorem sumVals_hmInsert {κ : Type} [DecidableEq κ] (l : List (κ × Nat)) (k : κ)
    (v : Nat) : sumVals (hmInsert l k v) + hmGet l k = sumVals l + v := by
  induction l with
  | nil => simp [hmInsert, hmGet, sumVals]
  | cons p rest ih =>
    obtain ⟨k', v'⟩ := p
    by_cases h : k' = k
    · subst h
      simp [hmInsert, hmGet, sumVals]
      omega
    · simp only [hmInsert, hmGet, if_neg h, sumVals]
      omega

theorem hmGet_le_sumVals {κ : Type} [DecidableEq κ] (l : List (κ × Nat)) (k : κ) :
    hmGet l k ≤ sumVals l := by
  induction l with
  | nil => simp [hmGet, sumVals]
  | cons p rest ih =>
    obtain ⟨k', v'⟩ := p
    by_cases h : k' = k
    · simp only [hmGet, if_pos h, sumVals]
      omega
    · simp only [hmGet, if_neg h, sumVals]
      omega

/-! ### Shape lemmas for the messages -/

theorem inner_transfer_err (s : Erc20) (frm dest : AccountId) (value : Nat)
    (h : s.balance_of frm < value) :
    s.inner_transfer frm dest value = Except.error Error.InsufficientBalance := by
  simp [Erc20.inner_transfer, h]

theorem inner_transfer_ok (s : Erc20) (frm dest : AccountId) (value : Nat)
    (h : value ≤ s.balance_of frm) :
    s.inner_transfer frm dest value =
      Except.ok
        ({ s with balances :=
             (hmInsert (hmInsert s.balances frm (s.balance_of frm - value)) dest
               (hmGet (hmInsert s.balances frm (s.balance_of frm - value)) dest + value)) },
         [Event.Transfer (some frm) (some dest) value]) := by
  simp [Erc20.inner_transfer, Nat.not_lt.mpr h, Erc20.balance_of]
  exact h

theorem inner_transfer_ok_inv (s : Erc20) (frm dest : AccountId) (value : Nat)
    (s' : Erc20) (es : List Event)
    (h : s.inner_transfer frm dest value = Except.ok (s', es)) :
    value ≤ s.balance_of frm ∧
    s'.total_supply = s.total_supply ∧
    s'.allowances = s.allowances ∧
    s'.balances =
      hmInsert (hmInsert s.balances frm (s.balance_of frm - value)) dest
        (hmGet (hmInsert s.balances frm (s.balance_of frm - value)) dest + value) ∧
    es = [Event.Transfer (some frm) (some dest) value] := by
  by_cases hb : s.balance_of frm < value
  · rw [inner_transfer_err s frm dest value hb] at h
    exact absurd h (by simp)
  · have hle : value ≤ s.balance_of frm := Nat.not_lt.mp hb
    rw [inner_transfer_ok s frm dest value hle] at h
    obtain ⟨h1, h2⟩ := by simpa using h
    subst h1 h2
    exact ⟨hle, rfl, rfl, rfl, rfl⟩

theorem inner_transfer_balance_of (s : Erc20) (frm dest : AccountId) (value : Nat)
    (s' : Erc20) (es : List Event)
    (h : s.inner_transfer frm dest value = Except.ok (s', es)) (a : AccountId) :
    s'.balance_of a =
      if a = dest then
        (if dest = frm then s.balance_of frm - value else s.balance_of dest) + value
      else if a = frm then s.balance_of frm - value
      else s.balance_of a := by
  obtain ⟨hle, _, _, hbal, _⟩ := inner_transfer_ok_inv s frm dest value s' es h
  by_cases ha : a = dest
  · subst ha
    by_cases hd : a = frm
    · subst hd
      simp [Erc20.balance_of, hbal, hmGet_hmInsert_self]
    · simp [Erc20.balance_of, hbal, hmGet_hmInsert_self,
        hmGet_hmInsert_ne s.balances frm a _ hd, hd]
  · by_cases hf : a = frm
    · subst hf
      simp [Erc20.balance_of, hbal, hmGet_hmInsert_ne _ dest a _ ha,
        hmGet_hmInsert_self, ha]
    · simp [Erc20.balance_of, hbal, hmGet_hmInsert_ne _ dest a _ ha,
        hmGet_hmInsert_ne _ frm a _ hf, ha, hf]

theorem sumVals_double_insert (l : List (AccountId × Nat)) (frm dest : AccountId)
    (value : Nat) (h : value ≤ hmGet l frm) :
    sumVals (hmInsert (hmInsert l frm (hmGet l frm - value)) dest
      (hmGet (hmInsert l frm (hmGet l frm - value)) dest + value)) = sumVals l := by
  have h1 := sumVals_hmInsert l frm (hmGet l frm - value)
  have h2 := sumVals_hmInsert (hmInsert l frm (hmGet l frm - value)) dest
    (hmGet (hmInsert l frm (hmGet l frm - value)) dest + value)
  have h3 := hmGet_le_sumVals l frm
  have h4 := hmGet_le_sumVals (hmInsert l frm (hmGet l frm - value)) dest
  omega

theorem inner_transfer_sum (s : Erc20) (frm dest : AccountId) (value : Nat)
    (s' : Erc20) (es : List Event)
    (h : s.inner_transfer frm dest value = Except.ok (s', es)) :
    sumVals s'.balances = sumVals s.balances := by
  obtain ⟨hle, _, _, hbal, _⟩ := inner_transfer_ok_inv s frm dest value s' es h
  simp only [Erc20.balance_of] at hle hbal
  rw [hbal]
  exact sumVals_double_insert s.balances frm dest value hle

/-! ### Characterisation of `transfer_from` -/

theorem transfer_from_err_allowance (s : Erc20) (caller frm dest : AccountId) (value : Nat)
    (h : s.allowance frm caller < value) :
    s.transfer_from caller frm dest value = Except.error Error.InsufficientAllowance := by
  simp [Erc20.transfer_from, h]

theorem transfer_from_err_balance (s : Erc20) (caller frm dest : AccountId) (value : Nat)
    (ha : value ≤ s.allowance frm caller) (hb : s.balance_of frm < value) :
    s.transfer_from caller frm dest value = Except.error Error.InsufficientBalance := by
  simp [Erc20.transfer_from, Nat.not_lt.mpr ha, inner_transfer_err s frm dest value hb]

theorem transfer_from_ok (s : Erc20) (caller frm dest : AccountId) (value : Nat)
    (ha : value ≤ s.allowance frm caller) (hb : value ≤ s.balance_of frm) :
    s.transfer_from caller frm dest value =
      Except.ok
        ({ s with
             balances :=
               (hmInsert (hmInsert s.balances frm (s.balance_of frm - value)) dest
                 (hmGet (hmInsert s.balances frm (s.balance_of frm - value)) dest + value)),
             allowances :=
               (hmInsert s.allowances (frm, caller) (s.allowance frm caller - value)) },
         [Event.Transfer (some frm) (some dest) value]) := by
  simp [Erc20.transfer_from, Nat.not_lt.mpr ha, inner_transfer_ok s frm dest value hb]

theorem transfer_from_ok_inv (s : Erc20) (caller frm dest : AccountId) (value : Nat)
    (s' : Erc20) (es : List Event)
    (h : s.transfer_from caller frm dest value = Except.ok (s', es)) :
    value ≤ s.allowance frm caller ∧ value ≤ s.balance_of frm ∧
    s' = { s with
             balances :=
               (hmInsert (hmInsert s.balances frm (s.balance_of frm - value)) dest
                 (hmGet (hmInsert s.balances frm (s.balance_of frm - value)) dest + value)),
             allowances :=
               (hmInsert s.allowances (frm, caller) (s.allowance frm caller - value)) } ∧
    es = [Event.Transfer (some frm) (some dest) value] := by
  by_cases ha : s.allowance frm caller < value
  · rw [transfer_from_err_allowance s caller frm dest value ha] at h
    exact absurd h (by simp)
  · have ha' : value ≤ s.allowance frm caller := Nat.not_lt.mp ha
    by_cases hb : s.balance_of frm < value
    · rw [transfer_from_err_balance s caller frm dest value ha' hb] at h
      exact absurd h (by simp)
    · have hb' : value ≤ s.balance_of frm := Nat.not_lt.mp hb
      rw [transfer_from_ok s caller frm dest value ha' hb'] at h
      obtain ⟨h1, h2⟩ := by simpa using h
      subst h1 h2
      exact ⟨ha', hb', rfl, rfl⟩

/-! ### The conservation invariant along reachable states -/

theorem step_invariant {s s' : Erc20} (hstep : Step s s')
    (hsum : sumVals s.balances = s.total_supply) :
    sumVals s'.balances = s'.total_supply ∧ s'.total_supply = s.total_supply := by
  cases hstep with
  | transfer caller dest value =>
    cases hi : s.transfer caller dest value with
    | error e => simp [postState, hi, hsum]
    | ok p =>
      obtain ⟨s1, es⟩ := p
      have hinv := inner_transfer_ok_inv s caller dest value s1 es hi
      have hs := inner_transfer_sum s caller dest value s1 es hi
      simp [postState, hi, hs, hsum, hinv.2.1]
  | approve caller dest value =>
    simp [postState, Erc20.approve, hsum]
  | transfer_from caller frm dest value =>
    cases hi : s.transfer_from caller frm dest value with
    | error e => simp [postState, hi, hsum]
    | ok p =>
      obtain ⟨s1, es⟩ := p
      obtain ⟨ha, hb, hs1, hes⟩ := transfer_from_ok_inv s caller frm dest value s1 es hi
      subst hs1
      refine ⟨?_, rfl⟩
      simp only [Erc20.balance_of] at hb
      simpa [hsum] using sumVals_double_insert s.balances frm dest value hb

theorem reachable_invariant (caller : AccountId) (supply : Nat) (s : Erc20)
    (h : Reachable caller supply s) :
    sumVals s.balances = s.total_supply ∧ s.total_supply = supply := by
  induction h with
  | init => constructor <;> simp [Erc20.new, sumVals, hmInsert]
  | step hr hstep ih =>
    obtain ⟨h1, h2⟩ := step_invariant hstep ih.1
    exact ⟨h1, h2.trans ih.2⟩

/-! ### The claims -/

/-- C1: Conservation of total supply — in every state reachable from a
ledger constructed by `new(supply)` via any sequence of `transfer`,
`approve` and `transfer_from` calls, the sum of all stored balances
equals `total_supply()`. -/
theorem C1_conservation_of_total_supply (caller : AccountId) (supply : Nat) (s : Erc20)
    (h : Reachable caller supply s) :
    sumVals s.balances = s.totalSupply :=
  (reachable_invariant caller supply s h).1

/-- Witness for C1 at the deployment state itself. -/
theorem C1_witness :
    sumVals initialLedger.balances = initialLedger.totalSupply :=
  C1_conservation_of_total_supply 0 100 initialLedger Reachable.init

/-- C2: whenever `allowance(from, caller) < value`, `transfer_from`
returns `Err(InsufficientAllowance)` and leaves the state unchanged —
with no assumption on `from`'s balance, so the allowance check takes
precedence over the balance check when both would fail. -/
theorem C2_transfer_from_insufficient_allowance (s : Erc20)
    (caller frm dest : AccountId) (value : Nat)
    (h : s.allowance frm caller < value) :
    s.transfer_from caller frm dest value = Except.error Error.InsufficientAllowance ∧
    postState s (s.transfer_from caller frm dest value) = s := by
  have he := transfer_from_err_allowance s caller frm dest value h
  exact ⟨he, by rw [he]; rfl⟩

/-- Witness for C2 on a state where both the allowance and the balance of
`from` are below `value`: the allowance error wins. -/
theorem C2_witness :
    initialLedger.balance_of 2 < 5 ∧
    initialLedger.transfer_from 1 2 3 5 = Except.error Error.InsufficientAllowance ∧
    postState initialLedger (initialLedger.transfer_from 1 2 3 5) = initialLedger :=
  ⟨by decide, C2_transfer_from_insufficient_allowance initialLedger 1 2 3 5 (by decide)⟩

/-- C3: when `allowance(from, caller) ≥ value` but `balance_of(from) <
value`, `transfer_from` returns `Err(InsufficientBalance)` and leaves the
whole state — in particular `allowance(from, caller)` — unchanged: the
allowance decrement never happens on the failed balance-movement path. -/
theorem C3_transfer_from_insufficient_balance (s : Erc20)
    (caller frm dest : AccountId) (value : Nat)
    (ha : value ≤ s.allowance frm caller) (hb : s.balance_of frm < value) :
    s.transfer_from caller frm dest value = Except.error Error.InsufficientBalance ∧
    postState s (s.transfer_from caller frm dest value) = s ∧
    (postState s (s.transfer_from caller frm dest value)).allowance frm caller
      = s.allowance frm caller := by
  have he := transfer_from_err_balance s caller frm dest value ha hb
  exact ⟨he, by rw [he]; rfl, by rw [he]; rfl⟩

/-- Witness for C3: spender `1` has allowance `200` from `0` but `0` only
holds `100`, so moving `150` fails with `InsufficientBalance`. -/
theorem C3_witness :
    150 ≤ approvedLedger.allowance 0 1 ∧ approvedLedger.balance_of 0 < 150 ∧
    approvedLedger.transfer_from 1 0 2 150 = Except.error Error.InsufficientBalance ∧
    postState approvedLedger (approvedLedger.transfer_from 1 0 2 150) = approvedLedger ∧
    (postState approvedLedger (approvedLedger.transfer_from 1 0 2 150)).allowance 0 1
      = approvedLedger.allowance 0 1 :=
  ⟨by decide, by decide,
   C3_transfer_from_insufficient_balance approvedLedger 1 0 2 150 (by decide) (by decide)⟩

/-- C4: a successful `transfer_from(from, to, v)` by `caller` decreases
`allowance(from, caller)` by exactly `v` and leaves every other allowance
entry unchanged. -/
theorem C4_transfer_from_success_allowance (s : Erc20)
    (caller frm dest : AccountId) (value : Nat) (s' : Erc20) (es : List Event)
    (h : s.transfer_from caller frm dest value = Except.ok (s', es)) :
    s'.allowance frm caller + value = s.allowance frm caller ∧
    ∀ owner spender : AccountId, (owner, spender) ≠ (frm, caller) →
      s'.allowance owner spender = s.allowance owner spender := by
  obtain ⟨ha, hb, hs1, hes⟩ := transfer_from_ok_inv s caller frm dest value s' es h
  subst hs1
  constructor
  · simp only [Erc20.allowance] at ha ⊢
    simp [hmGet_hmInsert_self]
    omega
  · intro owner spender hne
    simp [Erc20.allowance,
      hmGet_hmInsert_ne s.allowances (frm, caller) (owner, spender) _ hne]

/-- Witness for C4: after the successful delegated transfer of `50`, the
allowance `(0, 1)` went from `200` to `150` and the unrelated entry
`(2, 1)` is unchanged. -/
theorem C4_witness :
    finalLedger.allowance 0 1 + 50 = approvedLedger.allowance 0 1 ∧
    finalLedger.allowance 2 1 = approvedLedger.allowance 2 1 := by
  have h := C4_transfer_from_success_allowance approvedLedger 1 0 2 50 finalLedger
    [Event.Transfer (some 0) (some 2) 50] (by rfl)
  exact ⟨h.1, h.2 2 1 (by decide)⟩

/-- C5: `transfer(to, value)` by `caller` fails with
`InsufficientBalance` and no state change exactly when
`balance_of(caller) < value`; otherwise it succeeds with one `Transfer`
event, debits `caller` by `value`, credits `to` by `value` (reading the
post-debit balance, so a self-transfer nets out), and touches no other
account's balance. -/
theorem C5_transfer_spec (s : Erc20) (caller dest : AccountId) (value : Nat) :
    (s.balance_of caller < value →
      s.transfer caller dest value = Except.error Error.InsufficientBalance ∧
      postState s (s.transfer caller dest value) = s) ∧
    (value ≤ s.balance_of caller →
      s.transfer caller dest value =
        Except.ok (postState s (s.transfer caller dest value),
          [Event.Transfer (some caller) (some dest) value]) ∧
      (postState s (s.transfer caller dest value)).balance_of dest =
        (if dest = caller then s.balance_of caller - value else s.balance_of dest)
          + value ∧
      (caller ≠ dest →
        (postState s (s.transfer caller dest value)).balance_of caller =
          s.balance_of caller - value) ∧
      (∀ a : AccountId, a ≠ caller → a ≠ dest →
        (postState s (s.transfer caller dest value)).balance_of a = s.balance_of a)) := by
  constructor
  · intro h
    have he : s.transfer caller dest value = Except.error Error.InsufficientBalance :=
      inner_transfer_err s caller dest value h
    exact ⟨he, by rw [he]; rfl⟩
  · intro h
    simp only [Erc20.transfer]
    have ho := inner_transfer_ok s caller dest value h
    have hbal := inner_transfer_balance_of s caller dest value _ _ ho
    rw [ho]
    simp only [postState]
    refine ⟨trivial, ?_, ?_, ?_⟩
    · simpa using hbal dest
    · intro hne
      simpa [hne] using hbal caller
    · intro a ha hd
      simpa [ha, hd] using hbal a

/-- Witness for C5 on the success side: `0` sends `30` to `1` out of
`100`. -/
theorem C5_witness :
    30 ≤ initialLedger.balance_of 0 ∧
    initialLedger.transfer 0 1 30 =
      Except.ok (postState initialLedger (initialLedger.transfer 0 1 30),
        [Event.Transfer (some 0) (some 1) 30]) ∧
    transferredLedger.balance_of 0 = initialLedger.balance_of 0 - 30 :=
  ⟨by decide, ((C5_transfer_spec initialLedger 0 1 30).2 (by decide)).1,
   ((C5_transfer_spec initialLedger 0 1 30).2 (by decide)).2.2.1 (by decide)⟩

/-- C6: `approve(spender, amount)` by `caller` always returns `Ok`,
destructively overwrites the `(caller, spender)` allowance to exactly
`amount`, and changes no balance, no total supply, and no other allowance
entry. -/
theorem C6_approve_spec (s : Erc20) (caller spender : AccountId) (value : Nat) :
    s.approve caller spender value =
      Except.ok (postState s (s.approve caller spender value),
        [Event.Approval caller spender value]) ∧
    (postState s (s.approve caller spender value)).allowance caller spender = value ∧
    (postState s (s.approve caller spender value)).balances = s.balances ∧
    (postState s (s.approve caller spender value)).total_supply = s.total_supply ∧
    (∀ owner sp : AccountId, (owner, sp) ≠ (caller, spender) →
      (postState s (s.approve caller spender value)).allowance owner sp =
        s.allowance owner sp) := by
  refine ⟨rfl, ?_, rfl, rfl, ?_⟩
  · simp [postState, Erc20.approve, Erc20.allowance, hmGet_hmInsert_self]
  · intro owner sp hne
    simp [postState, Erc20.approve, Erc20.allowance,
      hmGet_hmInsert_ne s.allowances (caller, spender) (owner, sp) value hne]

/-- Witness for C6: re-approving `(0, 1)` at `77` overwrites the earlier
`200` rather than accumulating, and leaves entry `(0, 2)` alone. -/
theorem C6_witness :
    (postState approvedLedger (approvedLedger.approve 0 1 77)).allowance 0 1 = 77 ∧
    (postState approvedLedger (approvedLedger.approve 0 1 77)).allowance 0 2 =
      approvedLedger.allowance 0 2 :=
  ⟨(C6_approve_spec approvedLedger 0 1 77).2.1,
   (C6_approve_spec approvedLedger 0 1 77).2.2.2.2 0 2 (by decide)⟩

/-- C7: a self-transfer of any `v ≤ balance_of(caller)` succeeds, leaves
every balance (the caller's included) unchanged, and still emits exactly
one `Transfer` event `(caller, caller, v)`. -/
theorem C7_self_transfer (s : Erc20) (caller : AccountId) (value : Nat)
    (h : value ≤ s.balance_of caller) :
    s.transfer caller caller value =
      Except.ok (postState s (s.transfer caller caller value),
        [Event.Transfer (some caller) (some caller) value]) ∧
    (∀ a : AccountId, (postState s (s.transfer caller caller value)).balance_of a =
      s.balance_of a) := by
  simp only [Erc20.transfer]
  have ho := inner_transfer_ok s caller caller value h
  have hbal := inner_transfer_balance_of s caller caller value _ _ ho
  rw [ho]
  simp only [postState]
  refine ⟨trivial, ?_⟩
  intro a
  rw [hbal a]
  by_cases ha : a = caller
  · subst ha
    simp
    omega
  · simp [ha]

/-- Witness for C7: `0` transfers `40` to itself and its balance stays
`100`. -/
theorem C7_witness :
    40 ≤ initialLedger.balance_of 0 ∧
    initialLedger.transfer 0 0 40 =
      Except.ok (postState initialLedger (initialLedger.transfer 0 0 40),
        [Event.Transfer (some 0) (some 0) 40]) ∧
    (postState initialLedger (initialLedger.transfer 0 0 40)).balance_of 0 =
      initialLedger.balance_of 0 :=
  ⟨by decide, (C7_self_transfer initialLedger 0 40 (by decide)).1,
   (C7_self_transfer initialLedger 0 40 (by decide)).2 0⟩

/-- C8: `transfer`, `approve` and `transfer_from` are pure functions of
the pre-state and their inputs (the resolved caller included): on equal
states with equal inputs they yield equal results and post-states. -/
theorem C8_deterministic (s t : Erc20) (caller frm dest : AccountId) (value : Nat)
    (h : s = t) :
    s.transfer caller dest value = t.transfer caller dest value ∧
    s.approve caller dest value = t.approve caller dest value ∧
    s.transfer_from caller frm dest value = t.transfer_from caller frm dest value := by
  subst h
  exact ⟨rfl, rfl, rfl⟩

/-- Witness for C8 at a concrete state and inputs. -/
theorem C8_witness :
    initialLedger.transfer 0 1 30 = initialLedger.transfer 0 1 30 ∧
    initialLedger.approve 0 1 30 = initialLedger.approve 0 1 30 ∧
    initialLedger.transfer_from 1 0 2 30 = initialLedger.transfer_from 1 0 2 30 :=
  C8_deterministic initialLedger initialLedger 0 0 1 30 rfl |>.imp id
    (fun h => ⟨h.1, C8_deterministic initialLedger initialLedger 1 0 2 30 rfl |>.2.2⟩)

/-- C9: a zero-value transfer always succeeds — even from an account with
zero balance — changes no queryable balance, and emits one `Transfer`
event with amount `0`; it can never return `InsufficientBalance`. -/
theorem C9_zero_value_transfer (s : Erc20) (caller dest : AccountId) :
    s.transfer caller dest 0 =
      Except.ok (postState s (s.transfer caller dest 0),
        [Event.Transfer (some caller) (some dest) 0]) ∧
    (∀ a : AccountId, (postState s (s.transfer caller dest 0)).balance_of a =
      s.balance_of a) := by
  have h : (0 : Nat) ≤ s.balance_of caller := Nat.zero_le _
  simp only [Erc20.transfer]
  have ho := inner_transfer_ok s caller dest 0 h
  have hbal := inner_transfer_balance_of s caller dest 0 _ _ ho
  rw [ho]
  simp only [postState]
  refine ⟨trivial, ?_⟩
  intro a
  rw [hbal a]
  by_cases had : a = dest
  · subst had
    by_cases hac : a = caller
    · subst hac
      simp
    · simp [hac]
  · by_cases hac : a = caller
    · subst hac
      simp [had]
    · simp [had, hac]

/-- C10: the unchecked `to_balance + value` in `inner_transfer` cannot
overflow the `Balance` type (u128) in any reachable state: with the
conservation invariant, the post-debit receiving balance plus the
transferred value is bounded by the total supply. -/
theorem C10_no_overflow (caller : AccountId) (supply : Nat) (hs : supply < 2 ^ 128)
    (s : Erc20) (hr : Reachable caller supply s) (frm dest : AccountId) (value : Nat)
    (hv : value ≤ s.balance_of frm) :
    hmGet (hmInsert s.balances frm (s.balance_of frm - value)) dest + value < 2 ^ 128 := by
  obtain ⟨hsum, htot⟩ := reachable_invariant caller supply s hr
  simp only [Erc20.balance_of] at hv ⊢
  have h1 := sumVals_hmInsert s.balances frm (hmGet s.balances frm - value)
  have h3 := hmGet_le_sumVals s.balances frm
  have h4 := hmGet_le_sumVals (hmInsert s.balances frm (hmGet s.balances frm - value)) dest
  omega

/-- Witness for C10 at the deployment state with a transfer of `10`. -/
theorem C10_witness :
    hmGet (hmInsert initialLedger.balances 0 (initialLedger.balance_of 0 - 10)) 1 + 10
      < 2 ^ 128 :=
  C10_no_overflow 0 100 (by norm_num) initialLedger Reachable.init 0 1 10 (by decide)

end Erc20Spec
